import Mathlib

/-!
# Verification of the in-toto layout signing workflow

Shallow embedding of the repository's core scripts:
* `src/scripts/generate-intoto-key.py` — RSA key-pair generation and persistence,
* `src/scripts/update-layout-keys.py` — binding a key id into a layout document,
* `src/scripts/sign-layout.py` — signing a layout / metablock document.

JSON documents are modelled as an inductive `Json` type; Python `dict`s are
association lists with first-occurrence lookup and in-place replacement on
assignment (faithful to insertion-ordered Python dicts with unique keys).
Calls into the third-party `in_toto` / `securesystemslib` / `cryptography`
libraries are modelled at the granularity their behaviour is documented in the
spec (each such definition carries a `Modelled from the spec:` doc comment).
-/

/-- A JSON value, as produced by Python's `json.load`. -/
inductive Json where
  | null
  | bool (b : Bool)
  | num (n : Int)
  | str (s : String)
  | arr (xs : List Json)
  | obj (kvs : List (String × Json))
deriving Repr

namespace Json

mutual

/-- Boolean structural equality on `Json` (basis for decidable equality). -/
def jeq : Json → Json → Bool
  | .null, .null => true
  | .bool a, .bool b => a == b
  | .num a, .num b => a == b
  | .str a, .str b => a == b
  | .arr xs, .arr ys => jeqList xs ys
  | .obj xs, .obj ys => jeqKVs xs ys
  | _, _ => false

/-- Boolean equality on lists of `Json`. -/
def jeqList : List Json → List Json → Bool
  | [], [] => true
  | x :: xs, y :: ys => jeq x y && jeqList xs ys
  | _, _ => false

/-- Boolean equality on association lists of `Json`. -/
def jeqKVs : List (String × Json) → List (String × Json) → Bool
  | [], [] => true
  | (a, x) :: xs, (b, y) :: ys => a == b && jeq x y && jeqKVs xs ys
  | _, _ => false
end

mutual

theorem jeq_refl : ∀ a : Json, jeq a a = true
  | .null => rfl
  | .bool b => by simp [jeq]
  | .num n => by simp [jeq]
  | .str s => by simp [jeq]
  | .arr xs => by simp [jeq, jeqList_refl xs]
  | .obj xs => by simp [jeq, jeqKVs_refl xs]

theorem jeqList_refl : ∀ xs : List Json, jeqList xs xs = true
  | [] => rfl
  | x :: xs => by simp [jeqList, jeq_refl x, jeqList_refl xs]

theorem jeqKVs_refl : ∀ xs : List (String × Json), jeqKVs xs xs = true
  | [] => rfl
  | (a, x) :: xs => by simp [jeqKVs, jeq_refl x, jeqKVs_refl xs]

end

mutual

theorem eq_of_jeq : ∀ (a b : Json), jeq a b = true → a = b
  | .null, b, h => by cases b <;> simp_all [jeq]
  | .bool x, b, h => by cases b <;> simp_all [jeq]
  | .num x, b, h => by cases b <;> simp_all [jeq]
  | .str x, b, h => by cases b <;> simp_all [jeq]
  | .arr xs, b, h => by
      cases b with
      | arr ys => rw [eq_of_jeqList xs ys (by simpa [jeq] using h)]
      | _ => simp_all [jeq]
  | .obj xs, b, h => by
      cases b with
      | obj ys => rw [eq_of_jeqKVs xs ys (by simpa [jeq] using h)]
      | _ => simp_all [jeq]

theorem eq_of_jeqList : ∀ (xs ys : List Json), jeqList xs ys = true → xs = ys
  | [], ys, h => by cases ys <;> simp_all [jeqList]
  | x :: xs, [], h => by simp [jeqList] at h
  | x :: xs, y :: ys, h => by
      have h' : jeq x y = true ∧ jeqList xs ys = true := by simpa [jeqList] using h
      rw [eq_of_jeq x y h'.1, eq_of_jeqList xs ys h'.2]

theorem eq_of_jeqKVs :
    ∀ (xs ys : List (String × Json)), jeqKVs xs ys = true → xs = ys
  | [], ys, h => by cases ys <;> simp_all [jeqKVs]
  | (a, x) :: xs, [], h => by simp [jeqKVs] at h
  | (a, x) :: xs, (b, y) :: ys, h => by
      have h' : (a = b ∧ jeq x y = true) ∧ jeqKVs xs ys = true := by
        simpa [jeqKVs] using h
      rw [h'.1.1, eq_of_jeq x y h'.1.2, eq_of_jeqKVs xs ys h'.2]

end

instance : DecidableEq Json := fun a b =>
  decidable_of_iff (jeq a b = true) ⟨eq_of_jeq a b, fun h => h ▸ jeq_refl a⟩

instance {ε α : Type} [DecidableEq ε] [DecidableEq α] :
    DecidableEq (Except ε α) := fun a b =>
  match a, b with
  | .ok x, .ok y =>
      if h : x = y then .isTrue (by rw [h])
      else .isFalse (fun hh => h (Except.ok.inj hh))
  | .error x, .error y =>
      if h : x = y then .isTrue (by rw [h])
      else .isFalse (fun hh => h (Except.error.inj hh))
  | .ok _, .error _ => .isFalse (fun hh => Except.noConfusion hh)
  | .error _, .ok _ => .isFalse (fun hh => Except.noConfusion hh)

/-- First-occurrence lookup in an association list: Python `d[key]` / `key in d`
(Python dicts produced by `json.load` have unique keys). -/
def lookupKey : List (String × Json) → String → Option Json
  | [], _ => none
  | (b, w) :: t, a => if a = b then some w else lookupKey t a

/-- Python `key in d`. -/
def hasKey (kvs : List (String × Json)) (a : String) : Bool :=
  (lookupKey kvs a).isSome

/-- Python `d[key] = v`: replace the value at the first occurrence of `key`,
keeping its position, or append a fresh binding at the end. -/
def setKey : List (String × Json) → String → Json → List (String × Json)
  | [], a, v => [(a, v)]
  | (b, w) :: t, a, v => if a = b then (a, v) :: t else (b, w) :: setKey t a v

@[simp] theorem lookupKey_setKey_self (l : List (String × Json)) (a : String) (v : Json) :
    lookupKey (setKey l a v) a = some v := by
  induction l with
  | nil => simp [setKey, lookupKey]
  | cons hd t ih =>
    obtain ⟨b, w⟩ := hd
    by_cases h : a = b
    · simp [setKey, lookupKey, h]
    · simp [setKey, lookupKey, h, ih]

theorem lookupKey_setKey_ne (l : List (String × Json)) (a b : String) (v : Json)
    (h : b ≠ a) : lookupKey (setKey l a v) b = lookupKey l b := by
  induction l with
  | nil => simp [setKey, lookupKey, h]
  | cons hd t ih =>
    obtain ⟨c, w⟩ := hd
    by_cases hac : a = c
    · subst hac
      simp [setKey, lookupKey, h]
    · by_cases hbc : b = c
      · simp [setKey, lookupKey, hac, hbc]
      · simp [setKey, lookupKey, hac, hbc, ih]

theorem setKey_idem (l : List (String × Json)) (a : String) (v : Json) :
    setKey (setKey l a v) a v = setKey l a v := by
  induction l with
  | nil => simp [setKey]
  | cons hd t ih =>
    obtain ⟨b, w⟩ := hd
    by_cases h : a = b
    · simp [setKey, h]
    · simp [setKey, h, ih]

theorem setKey_eq_of_lookup (l : List (String × Json)) (a : String) (v : Json)
    (h : lookupKey l a = some v) : setKey l a v = l := by
  induction l with
  | nil => simp [lookupKey] at h
  | cons hd t ih =>
    obtain ⟨b, w⟩ := hd
    by_cases hab : a = b
    · subst hab
      simp [lookupKey] at h
      simp [setKey, h]
    · simp [lookupKey, hab] at h
      simp [setKey, hab, ih h]

end Json

/-! ## Key material and the CryptoSigner key id -/

/-- An RSA private key as loaded by `load_pem_private_key`: the PEM encoding
of its public half (`SubjectPublicKeyInfo`) together with the private-only
material.  The public half is derivable from the private material; we carry
both explicitly so that dependence on each part is visible in definitions. -/
structure RSAPrivateKey where
  pubPem : String
  privData : String
deriving Repr, DecidableEq

/-- Code points of a string: the byte-level model of its encoding. -/
def strCodes (s : String) : List Nat := s.data.map Char.toNat

/-- Modelled from the spec: the collision-resistant 256-bit digest (SHA-256
in `securesystemslib`) is abstracted as a deterministic function of its input
byte sequence; no claim below depends on further properties of the digest. -/
def digest256 (bytes : List Nat) : Nat :=
  bytes.foldl (fun h b => (h * 131 + b + 1) % (2 ^ 256)) 7

/-- Lowercase hexadecimal digit. -/
def hexChar (n : Nat) : Char :=
  if n < 10 then Char.ofNat (48 + n) else Char.ofNat (87 + n)

/-- Big-endian hex digits of `n`, `fuel` digits wide. -/
def hexDigits : Nat → Nat → List Char
  | 0, _ => []
  | fuel + 1, n => hexDigits fuel (n / 16) ++ [hexChar (n % 16)]

/-- Lowercase 64-hex-character rendering of a 256-bit digest. -/
def toHex64 (n : Nat) : String := ⟨hexDigits 64 n⟩

/-- Modelled from the spec: `securesystemslib`'s default signature scheme for
RSA keys, fixed once at `CryptoSigner` construction. -/
def defaultRsaScheme : String := "rsassa-pss-sha256"

/-- Modelled from the spec: the canonical encoding of the public-key
descriptor that is hashed to produce the key id (`keytype`, `scheme` and the
public-key PEM) — a pure function of the public key bytes. -/
def canonicalKeyBytes (pubPem : String) : List Nat :=
  strCodes "rsa" ++ [0] ++ strCodes defaultRsaScheme ++ [0] ++ strCodes pubPem

/-- Modelled from the spec: `CryptoSigner(private_key).public_key.keyid` —
the lowercase hex digest of the canonical public-key encoding. -/
def signerKeyId (k : RSAPrivateKey) : String :=
  toHex64 (digest256 (canonicalKeyBytes k.pubPem))

/-- The public-key descriptor `{keyid, **signer.public_key.to_dict()}` built
in `update_layout_keys` (src/scripts/update-layout-keys.py lines 46-53);
the `to_dict` shape is modelled from the spec's key-descriptor format. -/
def pubKeyDescriptor (k : RSAPrivateKey) : Json :=
  .obj [("keyid", .str (signerKeyId k)),
        ("keytype", .str "rsa"),
        ("scheme", .str defaultRsaScheme),
        ("keyval", .obj [("public", .str k.pubPem)])]

/-! ## update-layout-keys.py: the document transformation -/

/-- `step['pubkeys'] = [keyid]` on one element of the `steps` array; a
non-object element makes the Python item assignment raise `TypeError`. -/
def stepSetPubkeys (keyid : String) : Json → Except String Json
  | .obj s => .ok (.obj (Json.setKey s "pubkeys" (.arr [.str keyid])))
  | _ => .error "TypeError: step is not an object"

/-- A Python `for` loop applying a fallible transformation to every element,
stopping at the first raised exception. -/
def mapExcept (f : Json → Except String Json) :
    List Json → Except String (List Json)
  | [] => .ok []
  | x :: t =>
      match f x with
      | .error e => .error e
      | .ok y =>
          match mapExcept f t with
          | .error e => .error e
          | .ok ys => .ok (y :: ys)

/-- The document transformation of `update_layout_keys`
(src/scripts/update-layout-keys.py lines 74-78): replace the `keys` field
with a single-entry registry and set `pubkeys = [keyid]` on every step. -/
def updateLayoutDoc (keyid : String) (desc : Json) : Json → Except String Json
  | .obj d =>
      let d1 := Json.setKey d "keys" (.obj [(keyid, desc)])
      match Json.lookupKey d1 "steps" with
      | none => .ok (.obj d1)
      | some (.arr steps) =>
          match mapExcept (stepSetPubkeys keyid) steps with
          | .error e => .error e
          | .ok steps2 => .ok (.obj (Json.setKey d1 "steps" (.arr steps2)))
      | some _ => .error "TypeError: steps is not a list"
  | _ => .error "TypeError: layout is not an object"

/-- `update_layout_keys`'s in-memory update, for a loaded private key. -/
def update_layout_keys_doc (layout : Json) (k : RSAPrivateKey) :
    Except String Json :=
  updateLayoutDoc (signerKeyId k) (pubKeyDescriptor k) layout

/-! ## pathlib.PurePath.with_suffix -/

/-- The final path component: the text after the last slash. -/
def pathName (p : String) : List Char :=
  (p.data.reverse.takeWhile (fun c => c ≠ '/')).reverse

/-- Everything up to and including the last slash. -/
def pathParent (p : String) : List Char :=
  (p.data.reverse.dropWhile (fun c => c ≠ '/')).reverse

/-- Index of the suffix dot of a file name: the last `.`, valid only when it
is neither the first nor the last character of the name (pathlib's rule). -/
def suffixIdx (name : List Char) : Option Nat :=
  match name.reverse.findIdx? (fun c => c = '.') with
  | none => none
  | some r =>
      let i := name.length - 1 - r
      if 0 < i ∧ i < name.length - 1 then some i else none

/-- Python `pathlib.PurePath.with_suffix`: replace the final component's
suffix with `suf` — or append `suf` when the name has no suffix.  Faithful
for paths with a nonempty final component and `suf` either empty or starting
with a dot (the arguments used by the scripts). -/
def withSuffix (p : String) (suf : String) : String :=
  let name := pathName p
  let newName :=
    match suffixIdx name with
    | none => name ++ suf.data
    | some i => name.take i ++ suf.data
  ⟨pathParent p ++ newName⟩

/-! ## generate-intoto-key.py -/

/-- Path computation in `main` of src/scripts/generate-intoto-key.py (lines
112-113): the private key goes to the base path itself, the public key to
`base.with_suffix('.pub')`. -/
def mainKeyPaths (base : String) : String × String :=
  (base, withSuffix base ".pub")

/-- Filesystem for key generation: path, content identifier, permission mode. -/
abbrev KeyFS := List (String × Nat × Nat)

/-- Look a path up in the filesystem. -/
def fsLookup : KeyFS → String → Option (Nat × Nat)
  | [], _ => none
  | (q, c, m) :: t, p => if q = p then some (c, m) else fsLookup t p

/-- `Path.exists()`. -/
def fsExists (fs : KeyFS) (p : String) : Bool := (fsLookup fs p).isSome

/-- `Path.unlink(missing_ok=True)`. -/
def fsErase (fs : KeyFS) (p : String) : KeyFS := fs.filter (fun e => e.1 != p)

/-- `Path.write_bytes` on a fresh path (the generation flow only writes paths
it has checked to be absent); files are created with default mode 0o644. -/
def fsWrite (fs : KeyFS) (p : String) (c : Nat) : KeyFS :=
  (p, c, 0o644) :: fsErase fs p

/-- `Path.chmod`. -/
def fsChmod (fs : KeyFS) (p : String) (m : Nat) : KeyFS :=
  match fsLookup fs p with
  | some (c, _) => (p, c, m) :: fsErase fs p
  | none => fs

/-- Outcome of `generate_key_pair` (exit paths of the script). -/
inductive GenResult where
  | ok
  | alreadyExists
  | writeFailed
deriving Repr, DecidableEq

/-- `generate_key_pair` (src/scripts/generate-intoto-key.py lines 31-80) over
the filesystem model.  `privContent` and `pubContent` stand for the two
serialized PEM byte strings; `failAt` injects an exception into the n-th
filesystem operation (0: write private, 1: chmod private, 2: write public,
3: chmod public), `failAt ≥ 4` meaning no failure.  On an exception the
`except` handler unlinks both paths (`missing_ok=True`) and exits nonzero. -/
def generate_key_pair (fs : KeyFS) (privPath pubPath : String)
    (privContent pubContent : Nat) (failAt : Nat) : KeyFS × GenResult :=
  if fsExists fs privPath || fsExists fs pubPath then
    (fs, .alreadyExists)
  else
    let cleanup := fun (g : KeyFS) => fsErase (fsErase g privPath) pubPath
    if failAt = 0 then (cleanup fs, .writeFailed) else
    let fs1 := fsWrite fs privPath privContent
    if failAt = 1 then (cleanup fs1, .writeFailed) else
    let fs2 := fsChmod fs1 privPath 0o600
    if failAt = 2 then (cleanup fs2, .writeFailed) else
    let fs3 := fsWrite fs2 pubPath pubContent
    if failAt = 3 then (cleanup fs3, .writeFailed) else
    (fsChmod fs3 pubPath 0o644, .ok)

/-! ## sign-layout.py -/

mutual

/-- Modelled from the spec: the canonical deterministic byte encoding of a
document value used as signing input (`CanonicalEncoder.encode`); the exact
framing is a model choice, only determinism matters to the claims below. -/
def canonicalBytes : Json → List Nat
  | .null => [0]
  | .bool b => [1, if b then 1 else 0]
  | .num n => [2] ++ strCodes (toString n)
  | .str s => [3] ++ strCodes s ++ [255]
  | .arr xs => [4] ++ canonicalBytesList xs ++ [255]
  | .obj kvs => [5] ++ canonicalBytesKVs kvs ++ [255]

/-- Canonical encoding of a list of values. -/
def canonicalBytesList : List Json → List Nat
  | [] => []
  | x :: t => canonicalBytes x ++ canonicalBytesList t

/-- Canonical encoding of the fields of an object. -/
def canonicalBytesKVs : List (String × Json) → List Nat
  | [] => []
  | (a, x) :: t => strCodes a ++ [254] ++ canonicalBytes x ++ canonicalBytesKVs t

end

/-- Modelled from the spec: `scheme.sign(privateKey, canonicalBytes)` —
abstracted as a deterministic function of the private key and the canonical
encoding of the signed payload. -/
def signatureValue (k : RSAPrivateKey) (payload : Json) : String :=
  toHex64 (digest256 (strCodes k.privData ++ [253] ++ canonicalBytes payload))

/-- The `{keyid, sig}` entry appended by `Metablock.create_signature`
(modelled from the spec's signature format, §6). -/
def sigEntry (k : RSAPrivateKey) (payload : Json) : Json :=
  .obj [("keyid", .str (signerKeyId k)),
        ("sig", .str (signatureValue k payload))]

/-- Modelled from the spec: `Step(**step_dict)` in the unsigned-layout branch
of `sign_layout` — step objects are opaque policy payload which the core
serializes and deserializes losslessly (spec §1, §3); a non-mapping argument
makes the Python call raise `TypeError`. -/
def parseStep : Json → Except String Json
  | .obj s => .ok (.obj s)
  | _ => .error "TypeError: step is not a mapping"

/-- Modelled from the spec: `Inspection(**inspect_dict)`, as for steps. -/
def parseInspection : Json → Except String Json
  | .obj s => .ok (.obj s)
  | _ => .error "TypeError: inspection is not a mapping"

/-- The default expiration injected by `sign_layout`
(src/scripts/sign-layout.py line 94). -/
def defaultExpires : String := "2030-12-31T23:59:59Z"

/-- Python `layout_dict.get(f, [])` followed by iteration: absent means the
empty list; iterating a non-list value fails when its elements reach the
`Step`/`Inspection` constructor. -/
def getListField (d : List (String × Json)) (f : String) :
    Except String (List Json) :=
  match Json.lookupKey d f with
  | none => .ok []
  | some (.arr xs) => .ok xs
  | some _ => .error "TypeError: field is not a list"

/-- The unsigned-layout branch of `sign_layout` (src/scripts/sign-layout.py
lines 75-100): build the Layout payload from the parsed dict — steps and
inspections via their constructors, `keys` and `expires` with defaults
(line 93-94), `_type` copied when present (lines 97-98).  The serialized
field shape follows the spec's layout format (§6). -/
def buildLayout (d : List (String × Json)) : Except String Json :=
  match getListField d "steps" with
  | .error e => .error e
  | .ok stepsRaw =>
      match mapExcept parseStep stepsRaw with
      | .error e => .error e
      | .ok steps =>
          match getListField d "inspect" with
          | .error e => .error e
          | .ok inspRaw =>
              match mapExcept parseInspection inspRaw with
              | .error e => .error e
              | .ok insp =>
                  let keys := (Json.lookupKey d "keys").getD (.obj [])
                  let expires :=
                    (Json.lookupKey d "expires").getD (.str defaultExpires)
                  let typeTag :=
                    (Json.lookupKey d "_type").getD (.str "layout")
                  .ok (.obj [("_type", typeTag), ("expires", expires),
                             ("steps", .arr steps), ("inspect", .arr insp),
                             ("keys", keys)])

/-- Modelled from the spec: `Metablock.read` on a dict carrying `signed` and
`signatures` — a metablock pairs an opaque signed payload with its signature
list (spec §3, §6, glossary), and reading then dumping round-trips both. -/
def metablockRead (d : List (String × Json)) :
    Except String (Json × List Json) :=
  match Json.lookupKey d "signed", Json.lookupKey d "signatures" with
  | some signed, some (.arr sigs) => .ok (signed, sigs)
  | _, _ => .error "invalid metablock"

/-- The document transformation of `sign_layout` (src/scripts/sign-layout.py
lines 67-128), from parsed input JSON to the dumped output JSON: a dict with
both `signed` and `signatures` keys is read as a metablock (line 69-71), any
other dict is rebuilt as an unsigned layout (lines 75-100); then exactly one
signature by `k` over the signed payload is appended (line 119). -/
def sign_layout_doc (input : Json) (k : RSAPrivateKey) : Except String Json :=
  match input with
  | .obj d =>
      if Json.hasKey d "signed" && Json.hasKey d "signatures" then
        match metablockRead d with
        | .ok (signed, sigs) =>
            .ok (.obj [("signatures", .arr (sigs ++ [sigEntry k signed])),
                       ("signed", signed)])
        | .error e => .error e
      else
        match buildLayout d with
        | .ok signed =>
            .ok (.obj [("signatures", .arr [sigEntry k signed]),
                       ("signed", signed)])
        | .error e => .error e
  | _ => .error "TypeError: layout is not a JSON object"

/-! ## update-layout-keys.py: end-to-end filesystem level -/

/-- A file relevant to the key-binding flow, as a parsed view of its bytes. -/
inductive FileContent where
  | pemPriv (k : RSAPrivateKey)
  | pemPub (pem : String)
  | jsonDoc (j : Json)
  | other
deriving Repr, DecidableEq

/-- Filesystem for the key-binding flow. -/
abbrev DocFS := List (String × FileContent)

/-- Read a file. -/
def docRead : DocFS → String → Option FileContent
  | [], _ => none
  | (q, c) :: t, p => if q = p then some c else docRead t p

/-- Overwrite a file. -/
def docWrite (fs : DocFS) (p : String) (c : FileContent) : DocFS :=
  (p, c) :: fs.filter (fun e => e.1 != p)

/-- `update_layout_keys` end to end (src/scripts/update-layout-keys.py lines
24-89): the private-key path is derived by stripping the suffix from the
public-key path (line 34), then THE PRIVATE KEY is loaded (lines 38-40 — the
public key file itself is never read), the layout is loaded, updated and
written back in place. -/
def update_layout_keys_run (fs : DocFS) (layoutPath pubKeyPath : String) :
    Except String DocFS :=
  let privPath := withSuffix pubKeyPath ""
  match docRead fs privPath with
  | none => .error "Key file not found"
  | some (.pemPriv k) =>
      match docRead fs layoutPath with
      | none => .error "Layout file not found"
      | some (.jsonDoc layout) =>
          match update_layout_keys_doc layout k with
          | .ok updated => .ok (docWrite fs layoutPath (.jsonDoc updated))
          | .error e => .error e
      | some _ => .error "Invalid JSON in layout file"
  | some _ => .error "Failed to load key"

/-! ## Concrete documents, keys and result extractors used by the
witnesses and counterexamples below -/

/-- The total function a successful binding pass applies to each step. -/
def bindStep (keyid : String) : Json → Json
  | .obj s => .obj (Json.setKey s "pubkeys" (.arr [.str keyid]))
  | j => j

def bindWitnessInput : Json :=
  .obj [("_type", .str "layout"),
        ("steps", .arr [.obj [("name", .str "build")]]),
        ("keys", .obj []), ("expires", .str "2030-01-01T00:00:00Z")]

def bindWitnessKey : RSAPrivateKey := ⟨"PUBPEM", "PRIVDATA"⟩

def bindWitnessOutput : Json :=
  match update_layout_keys_doc bindWitnessInput bindWitnessKey with
  | .ok o => o
  | .error _ => .null

/-- A layout whose `keys` registry already holds a different key. -/
def otherKeyLayout : Json :=
  .obj [("keys", .obj [("otherid", .obj [("keytype", .str "rsa")])]),
        ("steps", .arr [])]

def cexKey : RSAPrivateKey := ⟨"PUB-A", "PRIV-A"⟩

/-- Does the operation succeed? -/
def isOkE (r : Except String Json) : Bool :=
  match r with
  | .ok _ => true
  | .error _ => false

/-- Does the `keys` registry of a bind result still contain an entry named
`kid`? -/
def resultKeysHasEntry (r : Except String Json) (kid : String) : Bool :=
  match r with
  | .ok (.obj o) =>
      match Json.lookupKey o "keys" with
      | some (.obj ks) => Json.hasKey ks kid
      | _ => false
  | _ => false

def frameWitnessDoc : List (String × Json) :=
  [("_type", .str "layout"), ("expires", .str "2031-01-01T00:00:00Z"),
   ("steps", .arr [.obj [("name", .str "build")]]), ("keys", .obj [])]

def frameWitnessOutput : Json :=
  match update_layout_keys_doc (.obj frameWitnessDoc) cexKey with
  | .ok o => o
  | .error _ => .null

def validLayoutFields : List (String × Json) :=
  [("_type", .str "layout"), ("expires", .str "2030-01-01T00:00:00Z"),
   ("steps", .arr [.obj [("name", .str "build")]]), ("inspect", .arr []),
   ("keys", .obj [])]

def validLayoutFile : Json := .obj validLayoutFields

/-- A filesystem holding a valid layout and a readable public key file, but
no private key file. -/
def fsWithoutPrivateKey : DocFS :=
  [("layout.json", .jsonDoc validLayoutFile), ("k.pub", .pemPub "PUBPEM")]

def witnessPrivKey : RSAPrivateKey := ⟨"PUBPEM-W", "PRIVDATA-W"⟩

/-- A filesystem holding the layout and the private key — and no public key
file at all. -/
def fsWithPrivateKey : DocFS :=
  [("k", .pemPriv witnessPrivKey), ("layout.json", .jsonDoc validLayoutFile)]

def bindRunOutput : Json :=
  match update_layout_keys_doc validLayoutFile witnessPrivKey with
  | .ok o => o
  | .error _ => .null

/-- A partially-signed document in the spec's §6 top-level shape: a non-empty
`signatures` list beside the payload fields, without a `signed` wrapper. -/
def sigOnlyDoc : Json :=
  .obj [("signatures", .arr [.obj [("keyid", .str "a"), ("sig", .str "b")]]),
        ("_type", .str "layout"), ("expires", .str "2030-01-01T00:00:00Z"),
        ("steps", .arr []), ("inspect", .arr []), ("keys", .obj [])]

def signKey : RSAPrivateKey := ⟨"PUB-S", "PRIV-S"⟩

/-- The signature list of a signing result. -/
def resultSignatures (r : Except String Json) : List Json :=
  match r with
  | .ok (.obj o) =>
      match Json.lookupKey o "signatures" with
      | some (.arr sigs) => sigs
      | _ => []
  | _ => []

/-- Decidable membership in a list of JSON values. -/
def containsJson (xs : List Json) (x : Json) : Bool :=
  xs.any (fun y => decide (y = x))

def metablockSignedPart : Json := .obj [("_type", .str "layout")]

def metablockOldSig : Json := .obj [("keyid", .str "aa"), ("sig", .str "bb")]

def metablockDoc : List (String × Json) :=
  [("signatures", .arr [metablockOldSig]), ("signed", metablockSignedPart)]

/-- A metablock document: a signed payload paired with its signature list. -/
def mkMetablock (signed : Json) (sigs : List Json) : Json :=
  .obj [("signatures", .arr sigs), ("signed", signed)]

def customStepDoc : List (String × Json) :=
  [("_type", .str "layout"), ("expires", .str "2030-01-01T00:00:00Z"),
   ("steps", .arr [.obj [("name", .str "build"), ("custom", .num 7)]]),
   ("inspect", .arr [.obj [("name", .str "inspect-1"), ("extra", .bool true)]]),
   ("keys", .obj [])]

def customStepOutput : Json :=
  match sign_layout_doc (.obj customStepDoc) signKey with
  | .ok o => o
  | .error _ => .null

/-- Is this JSON value an object? -/
def isObjJ : Json → Bool
  | .obj _ => true
  | _ => false

/-- The `steps`/`inspect` field is absent, or is a list of objects — the
shape on which the `Step`/`Inspection` constructor loop succeeds. -/
def isWfListField (d : List (String × Json)) (f : String) : Bool :=
  match Json.lookupKey d f with
  | none => true
  | some (.arr xs) => xs.all isObjJ
  | some _ => false

def noExpiresDoc : List (String × Json) :=
  [("_type", .str "layout"), ("steps", .arr []), ("inspect", .arr []),
   ("keys", .obj [])]

set_option maxRecDepth 100000

/-! ## Helper lemmas -/

/-- A step already carrying `pubkeys = [keyid]` is left unchanged by a second
binding pass. -/
theorem mapExcept_stepSet_idem (keyid : String) (xs ys : List Json)
    (h : mapExcept (stepSetPubkeys keyid) xs = .ok ys) :
    mapExcept (stepSetPubkeys keyid) ys = .ok ys := by
  induction xs generalizing ys with
  | nil =>
      simp [mapExcept] at h
      subst h
      simp [mapExcept]
  | cons x t ih =>
      cases x with
      | obj s =>
          simp only [mapExcept, stepSetPubkeys] at h
          cases hmt : mapExcept (stepSetPubkeys keyid) t with
          | error e => rw [hmt] at h; exact absurd h (by simp)
          | ok ts =>
              rw [hmt] at h
              simp only [Except.ok.injEq] at h
              subst h
              simp only [mapExcept, stepSetPubkeys, Json.setKey_idem,
                ih ts hmt]
      | null => simp [mapExcept, stepSetPubkeys] at h
      | bool b => simp [mapExcept, stepSetPubkeys] at h
      | num n => simp [mapExcept, stepSetPubkeys] at h
      | str s => simp [mapExcept, stepSetPubkeys] at h
      | arr a => simp [mapExcept, stepSetPubkeys] at h

theorem mapExcept_stepSet_eq_map (keyid : String) (xs ys : List Json)
    (h : mapExcept (stepSetPubkeys keyid) xs = .ok ys) :
    ys = xs.map (bindStep keyid) := by
  induction xs generalizing ys with
  | nil => simp [mapExcept] at h; subst h; simp
  | cons x t ih =>
      cases x with
      | obj s =>
          simp only [mapExcept, stepSetPubkeys] at h
          cases hmt : mapExcept (stepSetPubkeys keyid) t with
          | error e => rw [hmt] at h; exact absurd h (by simp)
          | ok ts =>
              rw [hmt] at h
              simp only [Except.ok.injEq] at h
              subst h
              simp [List.map, bindStep, ih ts hmt]
      | null => simp [mapExcept, stepSetPubkeys] at h
      | bool b => simp [mapExcept, stepSetPubkeys] at h
      | num n => simp [mapExcept, stepSetPubkeys] at h
      | str s => simp [mapExcept, stepSetPubkeys] at h
      | arr a => simp [mapExcept, stepSetPubkeys] at h

/-- `parseStep` round-trips: what the constructor accepts it returns as-is. -/
theorem mapExcept_parseStep_eq (xs ys : List Json)
    (h : mapExcept parseStep xs = .ok ys) : ys = xs := by
  induction xs generalizing ys with
  | nil => simp [mapExcept] at h; subst h; rfl
  | cons x t ih =>
      cases x with
      | obj s =>
          simp only [mapExcept, parseStep] at h
          cases hmt : mapExcept parseStep t with
          | error e => rw [hmt] at h; exact absurd h (by simp)
          | ok ts =>
              rw [hmt] at h
              simp only [Except.ok.injEq] at h
              subst h
              simp [ih ts hmt]
      | null => simp [mapExcept, parseStep] at h
      | bool b => simp [mapExcept, parseStep] at h
      | num n => simp [mapExcept, parseStep] at h
      | str s => simp [mapExcept, parseStep] at h
      | arr a => simp [mapExcept, parseStep] at h

/-! ## C1 -/

/-- **C1**: the key id bound into a layout is a pure function of the public
key's encoded bytes: two loaded private keys with the same public half yield
the same `keyid` and the same bound layout, independently of the private
material (and of any later scheme choice — the scheme entering the key id is
fixed at construction). -/
theorem keyId_pure_function_of_public_key (k1 k2 : RSAPrivateKey)
    (layout : Json) (h : k1.pubPem = k2.pubPem) :
    signerKeyId k1 = signerKeyId k2 ∧
      update_layout_keys_doc layout k1 = update_layout_keys_doc layout k2 := by
  have hk : signerKeyId k1 = signerKeyId k2 := by
    simp [signerKeyId, h]
  exact ⟨hk, by simp [update_layout_keys_doc, pubKeyDescriptor, hk, h]⟩

theorem keyId_pure_function_witness :
    (RSAPrivateKey.mk "PUB" "x").pubPem = (RSAPrivateKey.mk "PUB" "y").pubPem ∧
      (signerKeyId (RSAPrivateKey.mk "PUB" "x") =
          signerKeyId (RSAPrivateKey.mk "PUB" "y") ∧
        update_layout_keys_doc (.obj []) (RSAPrivateKey.mk "PUB" "x") =
          update_layout_keys_doc (.obj []) (RSAPrivateKey.mk "PUB" "y")) :=
  ⟨rfl, keyId_pure_function_of_public_key _ _ _ rfl⟩

/-! ## C9 -/

theorem updateLayoutDoc_idem (keyid : String) (desc : Json) (L o : Json)
    (h : updateLayoutDoc keyid desc L = .ok o) :
    updateLayoutDoc keyid desc o = .ok o := by
  cases L with
  | obj d =>
      simp only [updateLayoutDoc] at h
      have hkeys :
          Json.lookupKey (Json.setKey d "keys" (.obj [(keyid, desc)])) "keys" =
            some (.obj [(keyid, desc)]) := Json.lookupKey_setKey_self _ _ _
      cases hs : Json.lookupKey (Json.setKey d "keys" (.obj [(keyid, desc)])) "steps" with
      | none =>
          rw [hs] at h
          simp only [Except.ok.injEq] at h
          subst h
          simp only [updateLayoutDoc, Json.setKey_eq_of_lookup _ _ _ hkeys, hs]
      | some sv =>
          cases sv with
          | arr steps =>
              rw [hs] at h
              simp only [] at h
              cases hm : mapExcept (stepSetPubkeys keyid) steps with
              | error e => rw [hm] at h; exact absurd h (by simp)
              | ok steps2 =>
                  rw [hm] at h
                  simp only [Except.ok.injEq] at h
                  subst h
                  have hkeys2 :
                      Json.lookupKey
                        (Json.setKey (Json.setKey d "keys" (.obj [(keyid, desc)]))
                          "steps" (.arr steps2)) "keys" =
                        some (.obj [(keyid, desc)]) := by
                    rw [Json.lookupKey_setKey_ne _ _ _ _ (by decide)]
                    exact hkeys
                  simp only [updateLayoutDoc,
                    Json.setKey_eq_of_lookup _ _ _ hkeys2,
                    Json.lookupKey_setKey_self,
                    mapExcept_stepSet_idem keyid steps steps2 hm]
                  rw [Json.setKey_eq_of_lookup _ _ _ (Json.lookupKey_setKey_self _ _ _)]
          | null => rw [hs] at h; exact absurd h (by simp)
          | bool b => rw [hs] at h; exact absurd h (by simp)
          | num n => rw [hs] at h; exact absurd h (by simp)
          | str s => rw [hs] at h; exact absurd h (by simp)
          | obj kv => rw [hs] at h; exact absurd h (by simp)
  | null => exact absurd h (by simp [updateLayoutDoc])
  | bool b => exact absurd h (by simp [updateLayoutDoc])
  | num n => exact absurd h (by simp [updateLayoutDoc])
  | str s => exact absurd h (by simp [updateLayoutDoc])
  | arr a => exact absurd h (by simp [updateLayoutDoc])

/-- **C9**: binding the same key twice yields the same document as once. -/
theorem bindKey_idempotent (layout o : Json) (k : RSAPrivateKey)
    (h : update_layout_keys_doc layout k = .ok o) :
    update_layout_keys_doc o k = .ok o :=
  updateLayoutDoc_idem _ _ _ _ h

theorem bindKey_idempotent_witness :
    update_layout_keys_doc bindWitnessInput bindWitnessKey =
        .ok bindWitnessOutput ∧
      update_layout_keys_doc bindWitnessOutput bindWitnessKey =
        .ok bindWitnessOutput := by
  have h : update_layout_keys_doc bindWitnessInput bindWitnessKey =
      .ok bindWitnessOutput := by decide
  exact ⟨h, bindKey_idempotent _ _ _ h⟩

/-! ## C6 -/

/-- **C6 counterexample**: binding a key into a layout whose registry holds
`otherid` succeeds but erases that other entry — `bindKey` does not leave
other registry entries unchanged. -/
theorem bindKey_erases_other_registry_entries :
    isOkE (update_layout_keys_doc otherKeyLayout cexKey) = true ∧
      resultKeysHasEntry (update_layout_keys_doc otherKeyLayout cexKey)
          "otherid" = false := by
  constructor
  · decide
  · decide

/-- **C6 amended**: `bindKey` replaces the whole `keys` registry with the
single entry for the bound key (dropping all others), sets
`pubkeys = [keyId]` on every step (leaving the step's other fields
unchanged), and leaves every other top-level field of the document
unchanged. -/
theorem bindKey_frame (d : List (String × Json)) (k : RSAPrivateKey) (o : Json)
    (h : update_layout_keys_doc (.obj d) k = .ok o) :
    ∃ od, o = .obj od ∧
      Json.lookupKey od "keys" =
        some (.obj [(signerKeyId k, pubKeyDescriptor k)]) ∧
      (∀ f, f ≠ "keys" → f ≠ "steps" →
        Json.lookupKey od f = Json.lookupKey d f) ∧
      Json.lookupKey od "steps" =
        (Json.lookupKey d "steps").map (fun s =>
          match s with
          | .arr xs => .arr (xs.map (bindStep (signerKeyId k)))
          | j => j) := by
  simp only [update_layout_keys_doc, updateLayoutDoc] at h
  cases hs : Json.lookupKey
      (Json.setKey d "keys" (.obj [(signerKeyId k, pubKeyDescriptor k)]))
      "steps" with
  | none =>
      rw [hs] at h
      simp only [Except.ok.injEq] at h
      subst h
      refine ⟨_, rfl, Json.lookupKey_setKey_self _ _ _, ?_, ?_⟩
      · intro f hf1 hf2
        exact Json.lookupKey_setKey_ne _ _ _ _ hf1
      · have hds : Json.lookupKey d "steps" = none := by
          rw [← Json.lookupKey_setKey_ne d "keys" "steps"
            (.obj [(signerKeyId k, pubKeyDescriptor k)]) (by decide)]
          exact hs
        rw [hds, hs]
        rfl
  | some sv =>
      cases sv with
      | arr steps =>
          rw [hs] at h
          simp only [] at h
          cases hm : mapExcept (stepSetPubkeys (signerKeyId k)) steps with
          | error e => rw [hm] at h; exact absurd h (by simp)
          | ok steps2 =>
              rw [hm] at h
              simp only [Except.ok.injEq] at h
              subst h
              have hds : Json.lookupKey d "steps" = some (.arr steps) := by
                rw [← Json.lookupKey_setKey_ne d "keys" "steps"
                  (.obj [(signerKeyId k, pubKeyDescriptor k)]) (by decide)]
                exact hs
              refine ⟨_, rfl, ?_, ?_, ?_⟩
              · rw [Json.lookupKey_setKey_ne _ _ _ _ (by decide)]
                exact Json.lookupKey_setKey_self _ _ _
              · intro f hf1 hf2
                rw [Json.lookupKey_setKey_ne _ _ _ _ hf2]
                exact Json.lookupKey_setKey_ne _ _ _ _ hf1
              · rw [Json.lookupKey_setKey_self, hds]
                simp [mapExcept_stepSet_eq_map _ _ _ hm]
      | null => rw [hs] at h; exact absurd h (by simp)
      | bool b => rw [hs] at h; exact absurd h (by simp)
      | num n => rw [hs] at h; exact absurd h (by simp)
      | str s => rw [hs] at h; exact absurd h (by simp)
      | obj kv => rw [hs] at h; exact absurd h (by simp)

theorem bindKey_frame_witness :
    update_layout_keys_doc (.obj frameWitnessDoc) cexKey =
        .ok frameWitnessOutput ∧
      (∃ od, frameWitnessOutput = .obj od ∧
        Json.lookupKey od "keys" =
          some (.obj [(signerKeyId cexKey, pubKeyDescriptor cexKey)]) ∧
        (∀ f, f ≠ "keys" → f ≠ "steps" →
          Json.lookupKey od f = Json.lookupKey frameWitnessDoc f) ∧
        Json.lookupKey od "steps" =
          (Json.lookupKey frameWitnessDoc "steps").map (fun s =>
            match s with
            | .arr xs => .arr (xs.map (bindStep (signerKeyId cexKey)))
            | j => j)) := by
  have h : update_layout_keys_doc (.obj frameWitnessDoc) cexKey =
      .ok frameWitnessOutput := by decide
  exact ⟨h, bindKey_frame _ _ _ h⟩

/-! ## C7 -/

/-- **C7 counterexample**: with a valid layout and a readable public key PEM
on disk, the bind operation still fails, because it loads the private key
file `k` derived from the public-key path. -/
theorem bindKey_fails_without_private_key :
    update_layout_keys_run fsWithoutPrivateKey "layout.json" "k.pub" =
      .error "Key file not found" := by decide

/-- **C7 amended**: the bind operation needs the layout file and the PRIVATE
key file (at the public-key path with its suffix stripped); given those it
succeeds and rewrites the layout in place — no condition on the public key
file, whose content is never read. -/
theorem bindKey_requires_private_key_only (fs : DocFS)
    (layoutPath pubKeyPath : String) (k : RSAPrivateKey)
    (d : List (String × Json)) (o : Json)
    (hpriv : docRead fs (withSuffix pubKeyPath "") = some (.pemPriv k))
    (hlay : docRead fs layoutPath = some (.jsonDoc (.obj d)))
    (hupd : update_layout_keys_doc (.obj d) k = .ok o) :
    update_layout_keys_run fs layoutPath pubKeyPath =
      .ok (docWrite fs layoutPath (.jsonDoc o)) := by
  simp only [update_layout_keys_run, hpriv, hlay, hupd]

theorem bindKey_requires_private_key_only_witness :
    docRead fsWithPrivateKey (withSuffix "k.pub" "") =
        some (.pemPriv witnessPrivKey) ∧
      docRead fsWithPrivateKey "layout.json" =
        some (.jsonDoc validLayoutFile) ∧
      update_layout_keys_doc validLayoutFile witnessPrivKey =
        .ok bindRunOutput ∧
      update_layout_keys_run fsWithPrivateKey "layout.json" "k.pub" =
        .ok (docWrite fsWithPrivateKey "layout.json" (.jsonDoc bindRunOutput)) := by
  refine ⟨by decide, by decide, by decide, ?_⟩
  exact bindKey_requires_private_key_only fsWithPrivateKey "layout.json"
    "k.pub" witnessPrivKey validLayoutFields bindRunOutput (by decide)
    (by decide) (by decide)

/-! ## C8 -/

/-- **C8 counterexample**: for the base name `my.key`, the public key path is
`my.pub` — `with_suffix` replaces the existing extension — not
`my.key.pub` as the claim states. -/
theorem mainKeyPaths_replaces_extension :
    (mainKeyPaths "my.key").2 = "my.pub" ∧
      (mainKeyPaths "my.key").2 ≠ "my.key.pub" := by
  constructor
  · decide
  · decide

theorem pathParent_append_pathName (p : String) :
    pathParent p ++ pathName p = p.data := by
  unfold pathParent pathName
  rw [← List.reverse_append, List.takeWhile_append_dropWhile,
    List.reverse_reverse]

/-- **C8 amended**: the private key file goes to the base path itself, and
the public key path equals `base + ".pub"` exactly when the base's final
name component is nonempty and has no extension to replace; in general
`with_suffix` substitutes `.pub` for an existing extension. -/
theorem mainKeyPaths_no_suffix (base : String)
    (_hname : pathName base ≠ [])
    (hsuf : suffixIdx (pathName base) = none) :
    mainKeyPaths base = (base, base ++ ".pub") := by
  simp only [mainKeyPaths, withSuffix, hsuf, Prod.mk.injEq, true_and]
  apply String.ext
  show pathParent base ++ (pathName base ++ ".pub".data) = (base ++ ".pub").data
  rw [← List.append_assoc, pathParent_append_pathName]
  rfl

theorem mainKeyPaths_no_suffix_witness :
    pathName "layout-owner-key" ≠ [] ∧
      suffixIdx (pathName "layout-owner-key") = none ∧
      mainKeyPaths "layout-owner-key" =
        ("layout-owner-key", "layout-owner-key" ++ ".pub") :=
  ⟨by decide, by decide, mainKeyPaths_no_suffix _ (by decide) (by decide)⟩

/-! ## C5 -/

@[simp] theorem fsLookup_fsErase_self (fs : KeyFS) (p : String) :
    fsLookup (fsErase fs p) p = none := by
  induction fs with
  | nil => rfl
  | cons e t ih =>
      obtain ⟨q, c, m⟩ := e
      by_cases h : q = p
      · simpa [fsErase, List.filter_cons, h] using ih
      · simp only [fsErase, List.filter_cons] at ih ⊢
        simp [h, fsLookup, ih]

theorem fsLookup_fsErase_ne (fs : KeyFS) (p q : String) (h : q ≠ p) :
    fsLookup (fsErase fs p) q = fsLookup fs q := by
  induction fs with
  | nil => rfl
  | cons e t ih =>
      obtain ⟨r, c, m⟩ := e
      by_cases hr : r = p
      · subst hr
        simp only [fsErase, List.filter_cons] at ih ⊢
        simp [fsLookup, ih, Ne.symm h]
      · simp only [fsErase, List.filter_cons] at ih ⊢
        by_cases hq : r = q
        · simp [hr, fsLookup, hq, h]
        · simp [hr, fsLookup, hq, ih]

/-- The cleanup handler leaves neither key file on disk. -/
theorem cleanup_lookup (g : KeyFS) (priv pub : String) (h : priv ≠ pub) :
    fsLookup (fsErase (fsErase g priv) pub) priv = none ∧
      fsLookup (fsErase (fsErase g priv) pub) pub = none := by
  constructor
  · rw [fsLookup_fsErase_ne _ _ _ h]
    exact fsLookup_fsErase_self _ _
  · exact fsLookup_fsErase_self _ _

/-- After write-chmod-write-chmod both files hold their contents with the
requested modes. -/
theorem generate_success_lookups (fs : KeyFS) (privPath pubPath : String)
    (privC pubC : Nat) (hne : privPath ≠ pubPath) :
    fsLookup (fsChmod (fsWrite (fsChmod (fsWrite fs privPath privC)
        privPath 0o600) pubPath pubC) pubPath 0o644) privPath =
      some (privC, 0o600) ∧
    fsLookup (fsChmod (fsWrite (fsChmod (fsWrite fs privPath privC)
        privPath 0o600) pubPath pubC) pubPath 0o644) pubPath =
      some (pubC, 0o644) := by
  have hne' : ¬ (pubPath = privPath) := fun hh => hne hh.symm
  have hlw1 : fsLookup (fsWrite fs privPath privC) privPath =
      some (privC, 0o644) := by simp [fsWrite, fsLookup]
  rw [show fsChmod (fsWrite fs privPath privC) privPath 0o600 =
      (privPath, privC, 0o600) :: fsErase (fsWrite fs privPath privC) privPath
    from by simp [fsChmod, hlw1]]
  have hlw2 : fsLookup (fsWrite ((privPath, privC, 0o600) ::
      fsErase (fsWrite fs privPath privC) privPath) pubPath pubC) pubPath =
      some (pubC, 0o644) := by simp [fsWrite, fsLookup]
  rw [show fsChmod (fsWrite ((privPath, privC, 0o600) ::
      fsErase (fsWrite fs privPath privC) privPath) pubPath pubC) pubPath
        0o644 =
      (pubPath, pubC, 0o644) :: fsErase (fsWrite ((privPath, privC, 0o600) ::
        fsErase (fsWrite fs privPath privC) privPath) pubPath pubC) pubPath
    from by simp [fsChmod, hlw2]]
  constructor
  · simp only [fsLookup, hne', if_false]
    rw [fsLookup_fsErase_ne _ _ _ hne]
    simp only [fsWrite, fsLookup, hne', if_false]
    rw [fsLookup_fsErase_ne _ _ _ hne]
    simp [fsLookup]
  · simp [fsLookup]

/-- **C5**: key-pair generation is all-or-nothing on disk.  If either target
exists it fails without touching the filesystem; otherwise, wherever an
exception strikes, the end state holds either both files with their correct
permissions (0600 private, 0644 public) or neither file. -/
theorem generate_key_pair_atomic (fs : KeyFS) (privPath pubPath : String)
    (privC pubC failAt : Nat) (hne : privPath ≠ pubPath) :
    ((fsExists fs privPath || fsExists fs pubPath) = true →
      generate_key_pair fs privPath pubPath privC pubC failAt =
        (fs, .alreadyExists)) ∧
    ((fsExists fs privPath || fsExists fs pubPath) = false →
      (4 ≤ failAt →
        (generate_key_pair fs privPath pubPath privC pubC failAt).2 = .ok ∧
        fsLookup (generate_key_pair fs privPath pubPath privC pubC failAt).1
            privPath = some (privC, 0o600) ∧
        fsLookup (generate_key_pair fs privPath pubPath privC pubC failAt).1
            pubPath = some (pubC, 0o644)) ∧
      (failAt < 4 →
        (generate_key_pair fs privPath pubPath privC pubC failAt).2 =
            .writeFailed ∧
        fsLookup (generate_key_pair fs privPath pubPath privC pubC failAt).1
            privPath = none ∧
        fsLookup (generate_key_pair fs privPath pubPath privC pubC failAt).1
            pubPath = none)) := by
  constructor
  · intro hex
    simp [generate_key_pair, hex]
  · intro hex
    rw [Bool.or_eq_false_iff] at hex
    constructor
    · intro h4
      have h0 : failAt ≠ 0 := by omega
      have h1 : failAt ≠ 1 := by omega
      have h2 : failAt ≠ 2 := by omega
      have h3 : failAt ≠ 3 := by omega
      have hg : generate_key_pair fs privPath pubPath privC pubC failAt =
          (fsChmod (fsWrite (fsChmod (fsWrite fs privPath privC)
            privPath 0o600) pubPath pubC) pubPath 0o644, .ok) := by
        simp [generate_key_pair, hex.1, hex.2, h0, h1, h2, h3]
      rw [hg]
      exact ⟨rfl, (generate_success_lookups fs _ _ _ _ hne).1,
        (generate_success_lookups fs _ _ _ _ hne).2⟩
    · intro h4
      interval_cases failAt
      · have hg : generate_key_pair fs privPath pubPath privC pubC 0 =
            (fsErase (fsErase fs privPath) pubPath, .writeFailed) := by
          simp [generate_key_pair, hex.1, hex.2]
        rw [hg]
        exact ⟨rfl, (cleanup_lookup _ _ _ hne).1, (cleanup_lookup _ _ _ hne).2⟩
      · have hg : generate_key_pair fs privPath pubPath privC pubC 1 =
            (fsErase (fsErase (fsWrite fs privPath privC) privPath) pubPath,
              .writeFailed) := by
          simp [generate_key_pair, hex.1, hex.2]
        rw [hg]
        exact ⟨rfl, (cleanup_lookup _ _ _ hne).1, (cleanup_lookup _ _ _ hne).2⟩
      · have hg : generate_key_pair fs privPath pubPath privC pubC 2 =
            (fsErase (fsErase (fsChmod (fsWrite fs privPath privC) privPath
              0o600) privPath) pubPath, .writeFailed) := by
          simp [generate_key_pair, hex.1, hex.2]
        rw [hg]
        exact ⟨rfl, (cleanup_lookup _ _ _ hne).1, (cleanup_lookup _ _ _ hne).2⟩
      · have hg : generate_key_pair fs privPath pubPath privC pubC 3 =
            (fsErase (fsErase (fsWrite (fsChmod (fsWrite fs privPath privC)
              privPath 0o600) pubPath pubC) privPath) pubPath,
              .writeFailed) := by
          simp [generate_key_pair, hex.1, hex.2]
        rw [hg]
        exact ⟨rfl, (cleanup_lookup _ _ _ hne).1, (cleanup_lookup _ _ _ hne).2⟩

theorem generate_key_pair_atomic_witness :
    ("k" : String) ≠ "k.pub" ∧
      ((fsExists [] "k" || fsExists [] "k.pub") = false →
        (4 ≤ 4 →
          (generate_key_pair [] "k" "k.pub" 1 2 4).2 = .ok ∧
          fsLookup (generate_key_pair [] "k" "k.pub" 1 2 4).1 "k" =
            some (1, 0o600) ∧
          fsLookup (generate_key_pair [] "k" "k.pub" 1 2 4).1 "k.pub" =
            some (2, 0o644)) ∧
        (4 < 4 →
          (generate_key_pair [] "k" "k.pub" 1 2 4).2 = .writeFailed ∧
          fsLookup (generate_key_pair [] "k" "k.pub" 1 2 4).1 "k" = none ∧
          fsLookup (generate_key_pair [] "k" "k.pub" 1 2 4).1 "k.pub" =
            none)) :=
  ⟨by decide, (generate_key_pair_atomic [] "k" "k.pub" 1 2 4 (by decide)).2⟩

/-! ## C2 -/

/-- **C2 counterexample**: signing a document that carries a non-empty
top-level `signatures` list but no `signed` key succeeds — routed through the
unsigned-layout branch — and the input's signature entry is absent from the
output: it is not round-tripped. -/
theorem sign_layout_drops_toplevel_signatures :
    isOkE (sign_layout_doc sigOnlyDoc signKey) = true ∧
      containsJson (resultSignatures (sign_layout_doc sigOnlyDoc signKey))
          (.obj [("keyid", .str "a"), ("sig", .str "b")]) = false := by
  constructor
  · decide
  · decide

/-- **C2 amended**: for documents in metablock form — carrying both a
`signed` and a `signatures` key — signing round-trips every existing
signature entry, appending the new one at the end. -/
theorem sign_layout_metablock_roundtrip (d : List (String × Json))
    (k : RSAPrivateKey) (signed : Json) (sigs : List Json)
    (hs : Json.lookupKey d "signed" = some signed)
    (hg : Json.lookupKey d "signatures" = some (.arr sigs)) :
    sign_layout_doc (.obj d) k =
      .ok (.obj [("signatures", .arr (sigs ++ [sigEntry k signed])),
                 ("signed", signed)]) ∧
      ∀ e ∈ sigs, e ∈ sigs ++ [sigEntry k signed] := by
  constructor
  · simp [sign_layout_doc, Json.hasKey, hs, hg, metablockRead]
  · intro e he
    exact List.mem_append_left _ he

theorem sign_layout_metablock_roundtrip_witness :
    Json.lookupKey metablockDoc "signed" = some metablockSignedPart ∧
      Json.lookupKey metablockDoc "signatures" =
        some (.arr [metablockOldSig]) ∧
      (sign_layout_doc (.obj metablockDoc) signKey =
        .ok (.obj [("signatures",
              .arr ([metablockOldSig] ++ [sigEntry signKey metablockSignedPart])),
            ("signed", metablockSignedPart)]) ∧
        ∀ e ∈ [metablockOldSig],
          e ∈ [metablockOldSig] ++ [sigEntry signKey metablockSignedPart]) :=
  ⟨rfl, rfl, sign_layout_metablock_roundtrip metablockDoc signKey
    metablockSignedPart [metablockOldSig] rfl rfl⟩

/-! ## C4 -/

/-- **C4**: signing appends exactly one `{keyid, sig}` entry to the
document's signature list, never removing or replacing existing entries, and
signing a second time with the same key appends a second entry (equal to the
first, since the payload and scheme are unchanged) rather than replacing
it. -/
theorem sign_layout_append_only (signed : Json) (sigs : List Json)
    (k : RSAPrivateKey) :
    sign_layout_doc (mkMetablock signed sigs) k =
      .ok (mkMetablock signed (sigs ++ [sigEntry k signed])) ∧
      sign_layout_doc (mkMetablock signed (sigs ++ [sigEntry k signed])) k =
        .ok (mkMetablock signed
          (sigs ++ [sigEntry k signed, sigEntry k signed])) ∧
      sigEntry k signed =
        .obj [("keyid", .str (signerKeyId k)),
              ("sig", .str (signatureValue k signed))] := by
  refine ⟨?_, ?_, rfl⟩
  · simp [sign_layout_doc, mkMetablock, Json.hasKey, Json.lookupKey,
      metablockRead]
  · simp [sign_layout_doc, mkMetablock, Json.hasKey, Json.lookupKey,
      metablockRead]



/-! ## C3 -/

theorem getListField_ok (d : List (String × Json)) (f : String)
    (xs : List Json) (h : getListField d f = .ok xs) :
    (Json.lookupKey d f).getD (.arr []) = .arr xs := by
  cases hl : Json.lookupKey d f with
  | none =>
      simp only [getListField, hl] at h
      simp only [Except.ok.injEq] at h
      subst h
      rfl
  | some v =>
      cases v with
      | arr ys =>
          simp only [getListField, hl] at h
          simp only [Except.ok.injEq] at h
          subst h
          rfl
      | null => simp only [getListField, hl] at h; exact absurd h (by simp)
      | bool b => simp only [getListField, hl] at h; exact absurd h (by simp)
      | num n => simp only [getListField, hl] at h; exact absurd h (by simp)
      | str s => simp only [getListField, hl] at h; exact absurd h (by simp)
      | obj o => simp only [getListField, hl] at h; exact absurd h (by simp)

/-- `parseInspection` round-trips, as `parseStep` does. -/
theorem mapExcept_parseInspection_eq (xs ys : List Json)
    (h : mapExcept parseInspection xs = .ok ys) : ys = xs := by
  induction xs generalizing ys with
  | nil => simp [mapExcept] at h; subst h; rfl
  | cons x t ih =>
      cases x with
      | obj s =>
          simp only [mapExcept, parseInspection] at h
          cases hmt : mapExcept parseInspection t with
          | error e => rw [hmt] at h; exact absurd h (by simp)
          | ok ts =>
              rw [hmt] at h
              simp only [Except.ok.injEq] at h
              subst h
              simp [ih ts hmt]
      | null => simp [mapExcept, parseInspection] at h
      | bool b => simp [mapExcept, parseInspection] at h
      | num n => simp [mapExcept, parseInspection] at h
      | str s => simp [mapExcept, parseInspection] at h
      | arr a => simp [mapExcept, parseInspection] at h

/-- **C3**: for a document signed through the unsigned-layout branch, every
step object and every inspection object of the input — all their fields
included — reappears unchanged in the signed payload. -/
theorem sign_layout_preserves_payload_fields (d : List (String × Json))
    (k : RSAPrivateKey) (out : Json)
    (hm : (Json.hasKey d "signed" && Json.hasKey d "signatures") = false)
    (h : sign_layout_doc (.obj d) k = .ok out) :
    ∃ sd, out = .obj [("signatures", .arr [sigEntry k (.obj sd)]),
        ("signed", .obj sd)] ∧
      Json.lookupKey sd "steps" =
        some ((Json.lookupKey d "steps").getD (.arr [])) ∧
      Json.lookupKey sd "inspect" =
        some ((Json.lookupKey d "inspect").getD (.arr [])) := by
  simp only [sign_layout_doc, hm, Bool.false_eq_true, if_false] at h
  cases hb : buildLayout d with
  | error e => rw [hb] at h; exact absurd h (by simp)
  | ok signed =>
      rw [hb] at h
      simp only [Except.ok.injEq] at h
      subst h
      simp only [buildLayout] at hb
      cases hgs : getListField d "steps" with
      | error e => rw [hgs] at hb; exact absurd hb (by simp)
      | ok stepsRaw =>
          rw [hgs] at hb
          simp only [] at hb
          cases hms : mapExcept parseStep stepsRaw with
          | error e => rw [hms] at hb; exact absurd hb (by simp)
          | ok steps =>
              rw [hms] at hb
              simp only [] at hb
              cases hgi : getListField d "inspect" with
              | error e => rw [hgi] at hb; exact absurd hb (by simp)
              | ok inspRaw =>
                  rw [hgi] at hb
                  simp only [] at hb
                  cases hmi : mapExcept parseInspection inspRaw with
                  | error e => rw [hmi] at hb; exact absurd hb (by simp)
                  | ok insp =>
                      rw [hmi] at hb
                      simp only [Except.ok.injEq] at hb
                      subst hb
                      refine ⟨_, rfl, ?_, ?_⟩
                      · rw [mapExcept_parseStep_eq _ _ hms]
                        rw [getListField_ok _ _ _ hgs]
                        rfl
                      · rw [mapExcept_parseInspection_eq _ _ hmi]
                        rw [getListField_ok _ _ _ hgi]
                        rfl

theorem sign_layout_preserves_payload_fields_witness :
    (Json.hasKey customStepDoc "signed" &&
        Json.hasKey customStepDoc "signatures") = false ∧
      sign_layout_doc (.obj customStepDoc) signKey = .ok customStepOutput ∧
      (∃ sd, customStepOutput =
          .obj [("signatures", .arr [sigEntry signKey (.obj sd)]),
            ("signed", .obj sd)] ∧
        Json.lookupKey sd "steps" =
          some ((Json.lookupKey customStepDoc "steps").getD (.arr [])) ∧
        Json.lookupKey sd "inspect" =
          some ((Json.lookupKey customStepDoc "inspect").getD (.arr []))) := by
  refine ⟨by decide, by decide, ?_⟩
  exact sign_layout_preserves_payload_fields customStepDoc signKey
    customStepOutput (by decide) (by decide)

/-! ## C10 -/

theorem getListField_of_wf (d : List (String × Json)) (f : String)
    (h : isWfListField d f = true) :
    ∃ xs, getListField d f = .ok xs ∧ xs.all isObjJ = true := by
  unfold isWfListField at h
  cases hl : Json.lookupKey d f with
  | none => exact ⟨[], by simp [getListField, hl], rfl⟩
  | some v =>
      cases v with
      | arr xs =>
          rw [hl] at h
          simp only [] at h
          exact ⟨xs, by simp [getListField, hl], h⟩
      | null => rw [hl] at h; exact absurd h (by simp)
      | bool b => rw [hl] at h; exact absurd h (by simp)
      | num n => rw [hl] at h; exact absurd h (by simp)
      | str s => rw [hl] at h; exact absurd h (by simp)
      | obj o => rw [hl] at h; exact absurd h (by simp)

theorem mapExcept_parseStep_of_all_obj (xs : List Json)
    (h : xs.all isObjJ = true) : mapExcept parseStep xs = .ok xs := by
  induction xs with
  | nil => rfl
  | cons x t ih =>
      simp only [List.all_cons, Bool.and_eq_true] at h
      cases x with
      | obj s => simp [mapExcept, parseStep, ih h.2]
      | null => simp [isObjJ] at h
      | bool b => simp [isObjJ] at h
      | num n => simp [isObjJ] at h
      | str s => simp [isObjJ] at h
      | arr a => simp [isObjJ] at h

theorem mapExcept_parseInspection_of_all_obj (xs : List Json)
    (h : xs.all isObjJ = true) : mapExcept parseInspection xs = .ok xs := by
  induction xs with
  | nil => rfl
  | cons x t ih =>
      simp only [List.all_cons, Bool.and_eq_true] at h
      cases x with
      | obj s => simp [mapExcept, parseInspection, ih h.2]
      | null => simp [isObjJ] at h
      | bool b => simp [isObjJ] at h
      | num n => simp [isObjJ] at h
      | str s => simp [isObjJ] at h
      | arr a => simp [isObjJ] at h

/-- **C10**: a layout lacking `expires` signs without failing, and the signed
payload carries the injected constant `2030-12-31T23:59:59Z`. -/
theorem sign_layout_defaults_missing_expires (d : List (String × Json))
    (k : RSAPrivateKey)
    (hm : (Json.hasKey d "signed" && Json.hasKey d "signatures") = false)
    (he : Json.lookupKey d "expires" = none)
    (hsw : isWfListField d "steps" = true)
    (hiw : isWfListField d "inspect" = true) :
    ∃ sd, sign_layout_doc (.obj d) k =
        .ok (.obj [("signatures", .arr [sigEntry k (.obj sd)]),
          ("signed", .obj sd)]) ∧
      Json.lookupKey sd "expires" = some (.str defaultExpires) ∧
      defaultExpires = "2030-12-31T23:59:59Z" := by
  obtain ⟨xs, hgs, hxs⟩ := getListField_of_wf d "steps" hsw
  obtain ⟨ys, hgi, hys⟩ := getListField_of_wf d "inspect" hiw
  refine ⟨[("_type", (Json.lookupKey d "_type").getD (.str "layout")),
    ("expires", .str defaultExpires), ("steps", .arr xs),
    ("inspect", .arr ys),
    ("keys", (Json.lookupKey d "keys").getD (.obj []))], ?_, rfl, rfl⟩
  simp [sign_layout_doc, hm, buildLayout, hgs, hgi,
    mapExcept_parseStep_of_all_obj xs hxs,
    mapExcept_parseInspection_of_all_obj ys hys, he]

theorem sign_layout_defaults_missing_expires_witness :
    (Json.hasKey noExpiresDoc "signed" &&
        Json.hasKey noExpiresDoc "signatures") = false ∧
      Json.lookupKey noExpiresDoc "expires" = none ∧
      isWfListField noExpiresDoc "steps" = true ∧
      isWfListField noExpiresDoc "inspect" = true ∧
      (∃ sd, sign_layout_doc (.obj noExpiresDoc) signKey =
          .ok (.obj [("signatures", .arr [sigEntry signKey (.obj sd)]),
            ("signed", .obj sd)]) ∧
        Json.lookupKey sd "expires" = some (.str defaultExpires) ∧
        defaultExpires = "2030-12-31T23:59:59Z") := by
  refine ⟨by decide, by decide, by decide, by decide, ?_⟩
  exact sign_layout_defaults_missing_expires noExpiresDoc signKey (by decide)
    (by decide) (by decide) (by decide)
